import Mathlib

/-!
# Brute forcing service of amass (`src/amass/brute.go`)

A shallow embedding of `BruteForceService`: the deduplication filter
`subdomains`, the admission logic of `checkForNewSubdomain` and the
wordlist expansion of `performBruteForcing`, followed by theorems about them.

Conventions of the embedding

* Go strings are Lean `String`s; `strings.Split(s, ".")` and
  `strings.Join(ls, ".")` are `Split` and `Join` below (the separator is
  always the single byte `.` in this file, which never occurs inside a
  multi-byte UTF-8 sequence).
* `map[string]struct{}` is a `Finset String`.
* A method with receiver `bfs` takes the service state as an explicit
  argument and returns the new state.
* `go f(x)` is recorded as a spawned call; `handleRequest` runs the spawned
  calls in program order.  The mutex of `duplicate` makes it one atomic step,
  which is how it appears here.
* Every write to the output channel is a goroutine of its own in the source
  (`sendOut`), and so is every `performBruteForcing` call, so the source fixes
  no order among the requests it writes.  The list `output` holds them in the
  order of one schedule, program order; what is stated about the requests
  produced by a call is stated up to permutation (`List.Perm`), by membership
  or by length, and so holds for every order of the writes.
* The `select` loop of `processRequests` is a step function over the events
  it can receive (`processRequestsStep`), with the status `Running` or
  `Stopped`.
-/

namespace Amass

/-! ## Data model -/

/-- Modelled from the spec: the provenance marker of a request.  The constant
`BRUTE` used by `performBruteForcing` is declared outside `brute.go`; the spec
calls the field an enumerated provenance marker.  Every marker other than
`BRUTE` is `other`. -/
inductive Tag where
  | BRUTE
  | other (label : String)
  deriving DecidableEq, Repr

/-- Modelled from the spec: `AmassRequest`, declared outside `brute.go`.  The
four fields are the ones `performBruteForcing` fills in. -/
structure AmassRequest where
  Name : String
  Domain : String
  Tag : Tag
  Source : String
  deriving DecidableEq, Repr

/-- Modelled from the spec: the part of `AmassConfig` (declared outside
`brute.go`) that the service reads through `bfs.Config()`. -/
structure AmassConfig where
  BruteForcing : Bool
  Recursive : Bool
  Wordlist : List String
  deriving DecidableEq, Repr

/-- State of a `BruteForceService`: the filter `subdomains`, the activity flag
kept by `BaseAmassService`, and the requests written to the output channel so
far.  The writes are concurrent in the source; the list lists them in program
order, one of the possible orders of arrival on the channel. -/
structure ServiceState where
  subdomains : Finset String
  active : Bool
  output : List AmassRequest
  deriving DecidableEq

/-- Go `NewBruteForceService`: an empty filter and nothing written yet.  The
initial activity flag is set by `NewBaseAmassService`, which is outside
`brute.go`, so it is a parameter. -/
def NewBruteForceService (active : Bool) : ServiceState :=
  { subdomains := ∅, active := active, output := [] }

/-! ## Go string helpers -/

/-- Go `strings.Split(s, ".")`: the substrings of `s` between the dots.  The
result is never empty; `Split "" = [""]`. -/
def Split (s : String) : List String :=
  (s.data.splitOn '.').map String.mk

/-- Go `strings.Join(ls, ".")`: the elements of `ls` with a dot between
neighbours. -/
def Join (ls : List String) : String :=
  String.mk (List.intercalate ['.'] (ls.map String.data))

/-- Number of labels of a name: `len(strings.Split(s, "."))`. -/
def labelCount (s : String) : Nat :=
  (Split s).length

/-- The candidate subdomain of a name: `strings.Join(labels[1:], ".")` where
`labels = strings.Split(name, ".")`. -/
def candidate (name : String) : String :=
  Join ((Split name).drop 1)

/-! ## Operations -/

/-- Modelled from the spec: `BaseAmassService.SetActive`, declared outside
`brute.go`; it stores the activity flag. -/
def SetActive (b : Bool) (s : ServiceState) : ServiceState :=
  { s with active := b }

/-- Go `sendOut`: the goroutine sets the flag, writes `req` to the output
channel and sets the flag again.  The source runs this body in a new goroutine
per request, so the position at which `req` lands among other writes is not
fixed by the source; here it lands after the writes started before it. -/
def sendOut (req : AmassRequest) (s : ServiceState) : ServiceState :=
  let s1 := SetActive true s
  let s2 := { s1 with output := s1.output ++ [req] }
  SetActive true s2

/-- Go `duplicate`: returns `true` if `sub` is in the filter; otherwise adds it
and returns `false`.  The whole body runs under the lock. -/
def duplicate (sub : String) (s : ServiceState) : Bool × ServiceState :=
  if sub ∈ s.subdomains then (true, s)
  else (false, { s with subdomains := insert sub s.subdomains })

/-- The request `performBruteForcing` builds for one wordlist entry. -/
def bruteRequest (subdomain root word : String) : AmassRequest :=
  { Name := word ++ "." ++ subdomain
    Domain := root
    Tag := Tag.BRUTE
    Source := "Brute Forcing" }

/-- Go `performBruteForcing`: one `sendOut` per wordlist entry, started in
wordlist order. -/
def performBruteForcing (cfg : AmassConfig) (subdomain root : String)
    (s : ServiceState) : ServiceState :=
  cfg.Wordlist.foldl (fun st word => sendOut (bruteRequest subdomain root word) st) s

/-- A spawned call `go bfs.performBruteForcing(subdomain, root)`, as the pair
`(subdomain, root)`. -/
abbrev Batch := String × String

/-- Result of `checkForNewSubdomain`: the state it leaves and the calls it
spawned, one slot per `go` statement of the function (line 86 and line 109). -/
structure Admission where
  state : ServiceState
  kickoff : Option Batch
  recursive : Option Batch
  deriving DecidableEq

/-- The spawned calls of an admission in program order. -/
def Admission.batches (a : Admission) : List Batch :=
  a.kickoff.toList ++ a.recursive.toList

/-- Go `checkForNewSubdomain`, statement by statement; the comments are the
ones of the source. -/
def checkForNewSubdomain (cfg : AmassConfig) (req : AmassRequest)
    (s : ServiceState) : Admission :=
  if !cfg.BruteForcing then
    { state := s, kickoff := none, recursive := none }
  else
    let s1 := SetActive true s
    -- Check if we have seen the Domain already
    let d := duplicate req.Domain s1
    let kick : Option Batch := if !d.1 then some (req.Domain, req.Domain) else none
    let s2 := d.2
    -- If the Name is empty or recursive brute forcing is off, we are done here
    if req.Name = "" || !cfg.Recursive then
      { state := s2, kickoff := kick, recursive := none }
    else
      let labels := Split req.Name
      let num := labels.length
      -- Is this large enough to consider further?
      if num < 3 then
        { state := s2, kickoff := kick, recursive := none }
      else
        -- Have we already seen this subdomain?
        let sub := Join (labels.drop 1)
        let d2 := duplicate sub s2
        if d2.1 then
          { state := d2.2, kickoff := kick, recursive := none }
        -- It needs to have more labels than the root domain
        else if num - 1 ≤ (Split req.Domain).length then
          { state := d2.2, kickoff := kick, recursive := none }
        else
          -- Otherwise, run the brute forcing on the proper subdomain
          { state := d2.2, kickoff := kick, recursive := some (sub, req.Domain) }

/-- Run spawned `performBruteForcing` calls to completion, one after the other
in the order in which they were spawned.  In the source they are goroutines
and may overlap; this is one of their schedules. -/
def runBatches (cfg : AmassConfig) (bs : List Batch) (s : ServiceState) : ServiceState :=
  bs.foldl (fun st b => performBruteForcing cfg b.1 b.2 st) s

/-- Process one inbound request to completion: `checkForNewSubdomain`, then
the `performBruteForcing` calls it spawned. -/
def handleRequest (cfg : AmassConfig) (req : AmassRequest) (s : ServiceState) :
    ServiceState :=
  let a := checkForNewSubdomain cfg req s
  runBatches cfg a.batches a.state

/-- Process a sequence of inbound requests one after the other; returns the
final state and every spawned batch, in order. -/
def processAll (cfg : AmassConfig) : List AmassRequest → ServiceState →
    ServiceState × List Batch
  | [], s => (s, [])
  | r :: rs, s =>
    let a := checkForNewSubdomain cfg r s
    let rest := processAll cfg rs (runBatches cfg a.batches a.state)
    (rest.1, a.batches ++ rest.2)

/-- One operation on the service: a direct `duplicate` call, the processing
of an inbound request, or a tick of the idle timer (`SetActive(false)` in
`processRequests`). -/
inductive Op where
  | dup (key : String)
  | request (req : AmassRequest)
  | tick
  deriving DecidableEq

/-- Effect of one operation on the state. -/
def Op.apply (cfg : AmassConfig) : Op → ServiceState → ServiceState
  | Op.dup key, s => (duplicate key s).2
  | Op.request req, s => handleRequest cfg req s
  | Op.tick, s => SetActive false s

/-- Effect of a sequence of operations, first to last. -/
def runOps (cfg : AmassConfig) (ops : List Op) (s : ServiceState) : ServiceState :=
  ops.foldl (fun st op => op.apply cfg st) s

/-! ## The processing loop -/

/-- The three cases of the `select` in `processRequests`: a request read from
the input channel, a tick of the five second ticker, a value on the quit
channel. -/
inductive Event where
  | input (req : AmassRequest)
  | timer
  | quit
  deriving DecidableEq

/-- Whether the `for` loop of `processRequests` is still iterating or has
left through `break loop`. -/
inductive LoopStatus where
  | Running
  | Stopped
  deriving DecidableEq, Repr

/-- The goroutine running `processRequests`: its status, the service it
works on, and the requests it has handed to `go bfs.checkForNewSubdomain(req)`
so far (oldest first). -/
structure Loop where
  status : LoopStatus
  service : ServiceState
  dispatched : List AmassRequest
  deriving DecidableEq

/-- Go `OnStart`: the loop starts iterating on the given service. -/
def OnStart (s : ServiceState) : Loop :=
  { status := LoopStatus.Running, service := s, dispatched := [] }

/-- One iteration of the loop of `processRequests` on a ready event.  Once
the loop has left through `break loop` there are no further iterations, so
an event changes nothing. -/
def processRequestsStep (cfg : AmassConfig) (ev : Event) (l : Loop) : Loop :=
  match l.status with
  | LoopStatus.Stopped => l
  | LoopStatus.Running =>
    match ev with
    | Event.input req =>
      { l with service := handleRequest cfg req l.service
               dispatched := l.dispatched ++ [req] }
    | Event.timer => { l with service := SetActive false l.service }
    | Event.quit => { l with status := LoopStatus.Stopped }

/-- Go `processRequests` over a sequence of ready events, first to last. -/
def processRequests (cfg : AmassConfig) (evs : List Event) (l : Loop) : Loop :=
  evs.foldl (fun st ev => processRequestsStep cfg ev st) l

/-! ## Suffixes and emitted requests -/

/-- Go `strings.HasSuffix(s, suffix)`. -/
def HasSuffix (s suffix : String) : Prop :=
  suffix.data <:+ s.data

instance instDecidableHasSuffix (s suffix : String) : Decidable (HasSuffix s suffix) :=
  inferInstanceAs (Decidable (suffix.data <:+ s.data))

/-- The requests written to the output channel while `req` is processed in
state `s`. -/
def emitted (cfg : AmassConfig) (req : AmassRequest) (s : ServiceState) :
    List AmassRequest :=
  (handleRequest cfg req s).output.drop s.output.length

/-! ## Basic lemmas -/

theorem duplicate_of_mem {k : String} {s : ServiceState} (h : k ∈ s.subdomains) :
    duplicate k s = (true, s) := by
  simp [duplicate, h]

theorem duplicate_of_not_mem {k : String} {s : ServiceState} (h : k ∉ s.subdomains) :
    duplicate k s = (false, { s with subdomains := insert k s.subdomains }) := by
  simp [duplicate, h]

theorem duplicate_fst (k : String) (s : ServiceState) :
    (duplicate k s).1 = decide (k ∈ s.subdomains) := by
  by_cases h : k ∈ s.subdomains <;> simp [duplicate, h]

theorem duplicate_subdomains (k : String) (s : ServiceState) :
    (duplicate k s).2.subdomains = insert k s.subdomains := by
  by_cases h : k ∈ s.subdomains <;> simp [duplicate, h]

theorem duplicate_active (k : String) (s : ServiceState) :
    (duplicate k s).2.active = s.active := by
  by_cases h : k ∈ s.subdomains <;> simp [duplicate, h]

theorem duplicate_output (k : String) (s : ServiceState) :
    (duplicate k s).2.output = s.output := by
  by_cases h : k ∈ s.subdomains <;> simp [duplicate, h]

theorem sendOut_subdomains (req : AmassRequest) (s : ServiceState) :
    (sendOut req s).subdomains = s.subdomains := rfl

theorem sendOut_output (req : AmassRequest) (s : ServiceState) :
    (sendOut req s).output = s.output ++ [req] := rfl

theorem foldl_sendOut_subdomains (sub root : String) (ws : List String) (s : ServiceState) :
    (ws.foldl (fun st word => sendOut (bruteRequest sub root word) st) s).subdomains
      = s.subdomains := by
  induction ws generalizing s with
  | nil => rfl
  | cons w ws ih => simp [List.foldl_cons, ih, sendOut_subdomains]

theorem foldl_sendOut_output (sub root : String) (ws : List String) (s : ServiceState) :
    (ws.foldl (fun st word => sendOut (bruteRequest sub root word) st) s).output
      = s.output ++ ws.map (bruteRequest sub root) := by
  induction ws generalizing s with
  | nil => simp
  | cons w ws ih => simp [List.foldl_cons, ih, sendOut_output]

theorem performBruteForcing_subdomains (cfg : AmassConfig) (sub root : String)
    (s : ServiceState) :
    (performBruteForcing cfg sub root s).subdomains = s.subdomains :=
  foldl_sendOut_subdomains sub root cfg.Wordlist s

theorem performBruteForcing_output (cfg : AmassConfig) (sub root : String)
    (s : ServiceState) :
    (performBruteForcing cfg sub root s).output
      = s.output ++ cfg.Wordlist.map (bruteRequest sub root) :=
  foldl_sendOut_output sub root cfg.Wordlist s

theorem runBatches_subdomains (cfg : AmassConfig) (bs : List Batch) (s : ServiceState) :
    (runBatches cfg bs s).subdomains = s.subdomains := by
  induction bs generalizing s with
  | nil => rfl
  | cons b bs ih =>
    simp only [runBatches, List.foldl_cons] at ih ⊢
    rw [ih, performBruteForcing_subdomains]

theorem runBatches_output (cfg : AmassConfig) (bs : List Batch) (s : ServiceState) :
    (runBatches cfg bs s).output
      = s.output ++ (bs.map (fun b => cfg.Wordlist.map (bruteRequest b.1 b.2))).flatten := by
  induction bs generalizing s with
  | nil => simp [runBatches]
  | cons b bs ih =>
    simp only [runBatches, List.foldl_cons] at ih ⊢
    rw [ih, performBruteForcing_output]
    simp

theorem SetActive_subdomains (b : Bool) (s : ServiceState) :
    (SetActive b s).subdomains = s.subdomains := rfl

theorem SetActive_output (b : Bool) (s : ServiceState) :
    (SetActive b s).output = s.output := rfl

/-- The filter after `checkForNewSubdomain`: untouched when brute forcing is
off; otherwise the domain is recorded, and the candidate too as soon as the
name is non-empty, recursion is on and the name has at least three labels. -/
theorem checkForNewSubdomain_subdomains (cfg : AmassConfig) (req : AmassRequest)
    (s : ServiceState) :
    (checkForNewSubdomain cfg req s).state.subdomains =
      if cfg.BruteForcing = true then
        if req.Name ≠ "" ∧ cfg.Recursive = true ∧ 3 ≤ labelCount req.Name then
          insert (candidate req.Name) (insert req.Domain s.subdomains)
        else insert req.Domain s.subdomains
      else s.subdomains := by
  by_cases hB : cfg.BruteForcing = true
  · by_cases hN : req.Name = ""
    · simp [checkForNewSubdomain, hB, hN, duplicate_subdomains, SetActive_subdomains]
    · by_cases hR : cfg.Recursive = true
      · by_cases h3 : 3 ≤ labelCount req.Name
        · have h3n : ¬ (Split req.Name).length < 3 := by
            simpa [labelCount] using h3
          have hc : (req.Name ≠ "" ∧ cfg.Recursive = true ∧ 3 ≤ labelCount req.Name) :=
            ⟨hN, hR, h3⟩
          simp only [if_pos hB, if_pos hc]
          simp only [checkForNewSubdomain, hB, hN, hR, h3n, Bool.not_true,
            Bool.false_eq_true, if_false, decide_False, Bool.or_self]
          split_ifs <;> simp [duplicate_subdomains, SetActive_subdomains, candidate]
        · have h3n : (Split req.Name).length < 3 := by
            simpa [labelCount] using h3
          simp [checkForNewSubdomain, hB, hN, hR, h3, h3n, duplicate_subdomains,
            SetActive_subdomains]
      · simp [checkForNewSubdomain, hB, hN, hR, duplicate_subdomains, SetActive_subdomains]
  · simp [checkForNewSubdomain, hB]

theorem subset_checkForNewSubdomain (cfg : AmassConfig) (req : AmassRequest)
    (s : ServiceState) :
    s.subdomains ⊆ (checkForNewSubdomain cfg req s).state.subdomains := by
  rw [checkForNewSubdomain_subdomains]
  intro x hx
  split_ifs <;> simp [hx]

theorem handleRequest_subdomains (cfg : AmassConfig) (req : AmassRequest)
    (s : ServiceState) :
    (handleRequest cfg req s).subdomains = (checkForNewSubdomain cfg req s).state.subdomains := by
  simp [handleRequest, runBatches_subdomains]

theorem subset_apply (cfg : AmassConfig) (op : Op) (s : ServiceState) :
    s.subdomains ⊆ (op.apply cfg s).subdomains := by
  cases op with
  | dup key =>
    simp only [Op.apply, duplicate_subdomains]
    exact Finset.subset_insert _ _
  | request req =>
    simp only [Op.apply, handleRequest_subdomains]
    exact subset_checkForNewSubdomain cfg req s
  | tick => simp [Op.apply, SetActive_subdomains]

theorem subset_runOps (cfg : AmassConfig) (ops : List Op) (s : ServiceState) :
    s.subdomains ⊆ (runOps cfg ops s).subdomains := by
  induction ops generalizing s with
  | nil => simp [runOps]
  | cons op ops ih =>
    simp only [runOps, List.foldl_cons] at ih ⊢
    exact (subset_apply cfg op s).trans (ih _)

theorem checkForNewSubdomain_kickoff (cfg : AmassConfig) (req : AmassRequest)
    (s : ServiceState) :
    (checkForNewSubdomain cfg req s).kickoff =
      if cfg.BruteForcing = true ∧ req.Domain ∉ s.subdomains then
        some (req.Domain, req.Domain)
      else none := by
  by_cases hB : cfg.BruteForcing = true
  · by_cases hD : req.Domain ∈ s.subdomains
    · simp only [checkForNewSubdomain, hB, duplicate_fst, SetActive_subdomains]
      split_ifs <;> simp_all
    · simp only [checkForNewSubdomain, hB, duplicate_fst, SetActive_subdomains]
      split_ifs <;> simp_all
  · simp [checkForNewSubdomain, hB]

theorem checkForNewSubdomain_recursive (cfg : AmassConfig) (req : AmassRequest)
    (s : ServiceState) :
    (checkForNewSubdomain cfg req s).recursive =
      if cfg.BruteForcing = true ∧ cfg.Recursive = true ∧ req.Name ≠ "" ∧
          3 ≤ labelCount req.Name ∧ candidate req.Name ∉ s.subdomains ∧
          candidate req.Name ≠ req.Domain ∧
          labelCount req.Domain < labelCount req.Name - 1 then
        some (candidate req.Name, req.Domain)
      else none := by
  by_cases hB : cfg.BruteForcing = true
  · simp only [checkForNewSubdomain, hB, duplicate_fst, duplicate_subdomains,
      SetActive_subdomains, candidate, labelCount]
    split_ifs <;> simp_all <;> omega
  · simp [checkForNewSubdomain, hB]

/-! ## Labels -/

theorem splitOnP_not_sep {α : Type} (p : α → Bool) (xs : List α) :
    ∀ l ∈ xs.splitOnP p, ∀ y ∈ l, p y = false := by
  induction xs with
  | nil => simp
  | cons x xs ih =>
    rw [List.splitOnP_cons]
    by_cases hp : p x = true
    · simp only [hp, if_true, List.mem_cons]
      rintro l (rfl | hl)
      · simp
      · exact ih l hl
    · simp only [hp, Bool.false_eq_true, if_false]
      cases hs : xs.splitOnP p with
      | nil => exact absurd hs (List.splitOnP_ne_nil p xs)
      | cons hd tl =>
        rw [hs] at ih
        simp only [List.modifyHead_cons, List.mem_cons]
        rintro l (rfl | hl)
        · intro y hy
          rcases List.mem_cons.mp hy with rfl | hy
          · simpa using hp
          · exact ih hd (List.mem_cons_self _ _) y hy
        · exact ih l (List.mem_cons_of_mem _ hl)

theorem splitOn_not_mem (xs : List Char) : ∀ l ∈ xs.splitOn '.', '.' ∉ l := by
  intro l hl hmem
  have := splitOnP_not_sep (fun c => c == '.') xs l hl '.' hmem
  simp at this

theorem labelCount_pos (s : String) : 1 ≤ labelCount s := by
  unfold labelCount Split
  rw [List.length_map]
  exact List.length_pos.mpr (List.splitOnP_ne_nil _ _)

theorem labelCount_empty : labelCount "" = 1 := by decide

/-- Splitting the candidate gives back the labels of the name without the
first one. -/
theorem Split_candidate (name : String) (h : 2 ≤ labelCount name) :
    Split (candidate name) = (Split name).drop 1 := by
  unfold labelCount Split at h
  rw [List.length_map] at h
  have hne : (name.data.splitOn '.').drop 1 ≠ [] := by
    intro hnil
    have := congrArg List.length hnil
    simp only [List.length_drop, List.length_nil] at this
    omega
  have hx : ∀ l ∈ (name.data.splitOn '.').drop 1, '.' ∉ l :=
    fun l hl => splitOn_not_mem name.data l (List.mem_of_mem_drop hl)
  have hdata : (List.map String.mk (name.data.splitOn '.')).drop 1
      = List.map String.mk ((name.data.splitOn '.').drop 1) := by
    rw [List.map_drop]
  unfold candidate Join Split
  rw [hdata, List.map_map]
  have hid : (String.data ∘ String.mk) = id := by funext l; rfl
  rw [hid, List.map_id, List.splitOn_intercalate _ '.' hx hne]

theorem labelCount_candidate (name : String) (h : 2 ≤ labelCount name) :
    labelCount (candidate name) = labelCount name - 1 := by
  unfold labelCount
  rw [Split_candidate name h, List.length_drop]

/-! ## Keys of spawned batches -/

/-- The keys of the batches one request spawns are distinct, were absent from
the filter before the request and are in it afterwards. -/
theorem batches_keys (cfg : AmassConfig) (req : AmassRequest) (s : ServiceState) :
    ((checkForNewSubdomain cfg req s).batches.map Prod.fst).Nodup ∧
    ∀ k ∈ (checkForNewSubdomain cfg req s).batches.map Prod.fst,
      k ∉ s.subdomains ∧ k ∈ (checkForNewSubdomain cfg req s).state.subdomains := by
  simp only [Admission.batches, checkForNewSubdomain_kickoff, checkForNewSubdomain_recursive,
    checkForNewSubdomain_subdomains]
  by_cases hk : cfg.BruteForcing = true ∧ req.Domain ∉ s.subdomains
  · by_cases hr : cfg.BruteForcing = true ∧ cfg.Recursive = true ∧ req.Name ≠ "" ∧
        3 ≤ labelCount req.Name ∧ candidate req.Name ∉ s.subdomains ∧
        candidate req.Name ≠ req.Domain ∧
        labelCount req.Domain < labelCount req.Name - 1
    · have hc : req.Name ≠ "" ∧ cfg.Recursive = true ∧ 3 ≤ labelCount req.Name :=
        ⟨hr.2.2.1, hr.2.1, hr.2.2.2.1⟩
      rw [if_pos hk, if_pos hr, if_pos hk.1, if_pos hc]
      have hne : req.Domain ≠ candidate req.Name := fun h => hr.2.2.2.2.2.1 h.symm
      refine ⟨by simp [hne], ?_⟩
      intro k hk2
      simp only [Option.toList_some, List.singleton_append, List.map_cons, List.map_nil,
        List.mem_cons, List.mem_singleton, List.not_mem_nil, or_false] at hk2
      rcases hk2 with rfl | rfl
      · exact ⟨hk.2, by simp⟩
      · exact ⟨hr.2.2.2.2.1, by simp⟩
    · rw [if_pos hk, if_neg hr, if_pos hk.1]
      refine ⟨by simp, ?_⟩
      intro k hk2
      simp only [Option.toList_some, Option.toList_none, List.append_nil, List.map_cons,
        List.map_nil, List.mem_singleton] at hk2
      subst hk2
      refine ⟨hk.2, ?_⟩
      split_ifs <;> simp
  · by_cases hr : cfg.BruteForcing = true ∧ cfg.Recursive = true ∧ req.Name ≠ "" ∧
        3 ≤ labelCount req.Name ∧ candidate req.Name ∉ s.subdomains ∧
        candidate req.Name ≠ req.Domain ∧
        labelCount req.Domain < labelCount req.Name - 1
    · have hc : req.Name ≠ "" ∧ cfg.Recursive = true ∧ 3 ≤ labelCount req.Name :=
        ⟨hr.2.2.1, hr.2.1, hr.2.2.2.1⟩
      rw [if_neg hk, if_pos hr, if_pos hr.1, if_pos hc]
      refine ⟨by simp, ?_⟩
      intro k hk2
      simp only [Option.toList_some, Option.toList_none, List.nil_append, List.map_cons,
        List.map_nil, List.mem_singleton] at hk2
      subst hk2
      exact ⟨hr.2.2.2.2.1, by simp⟩
    · rw [if_neg hk, if_neg hr]
      simp

theorem subset_processAll (cfg : AmassConfig) (reqs : List AmassRequest) (s : ServiceState) :
    s.subdomains ⊆ (processAll cfg reqs s).1.subdomains := by
  induction reqs generalizing s with
  | nil => simp [processAll]
  | cons r rs ih =>
    simp only [processAll]
    refine (subset_checkForNewSubdomain cfg r s).trans ?_
    have := ih (runBatches cfg (checkForNewSubdomain cfg r s).batches
      (checkForNewSubdomain cfg r s).state)
    rwa [runBatches_subdomains] at this

/-- The keys of all batches spawned by a sequence of requests are pairwise
distinct and were absent from the filter at the start. -/
theorem processAll_keys (cfg : AmassConfig) (reqs : List AmassRequest) (s : ServiceState) :
    ((processAll cfg reqs s).2.map Prod.fst).Nodup ∧
    ∀ k ∈ (processAll cfg reqs s).2.map Prod.fst, k ∉ s.subdomains := by
  induction reqs generalizing s with
  | nil => simp [processAll]
  | cons r rs ih =>
    obtain ⟨hnd, hkeys⟩ := batches_keys cfg r s
    obtain ⟨ihnd, ihkeys⟩ := ih (runBatches cfg (checkForNewSubdomain cfg r s).batches
      (checkForNewSubdomain cfg r s).state)
    simp only [runBatches_subdomains] at ihkeys
    simp only [processAll, List.map_append]
    refine ⟨List.Nodup.append hnd ihnd ?_, ?_⟩
    · intro k hk1 hk2
      exact ihkeys k hk2 (hkeys k hk1).2
    · intro k hk
      rcases List.mem_append.mp hk with h | h
      · exact (hkeys k h).1
      · exact fun hmem => ihkeys k h (subset_checkForNewSubdomain cfg r s hmem)

theorem processAll_append (cfg : AmassConfig) (xs ys : List AmassRequest) (s : ServiceState) :
    processAll cfg (xs ++ ys) s =
      ((processAll cfg ys (processAll cfg xs s).1).1,
       (processAll cfg xs s).2 ++ (processAll cfg ys (processAll cfg xs s).1).2) := by
  induction xs generalizing s with
  | nil => simp [processAll]
  | cons x xs ih => simp [processAll, ih, List.append_assoc]

/-! ## The deduplication filter -/

/-- C1: for every filter state `S` and key `k`, `duplicate k` returns `true`
and leaves the service unchanged when `k` is in the filter; otherwise it
returns `false` and the filter afterwards is `S` with `k` added, so a key is
in the new filter exactly when it is `k` or was in `S`, and nothing else of
the service changes. -/
theorem duplicate_spec (S : ServiceState) (k : String) :
    (k ∈ S.subdomains → duplicate k S = (true, S)) ∧
    (k ∉ S.subdomains →
      (duplicate k S).1 = false ∧
      (duplicate k S).2 = { S with subdomains := insert k S.subdomains } ∧
      ∀ j, j ∈ (duplicate k S).2.subdomains ↔ j = k ∨ j ∈ S.subdomains) := by
  refine ⟨fun h => duplicate_of_mem h, fun h => ?_⟩
  rw [duplicate_of_not_mem h]
  exact ⟨rfl, rfl, fun j => by simp⟩

/-- C1 at concrete filters: `"b.com"` is absent from `{"a.com"}` and gets
added; `"a.com"` is present and the state stays as it is. -/
theorem duplicate_spec_witness :
    duplicate "a.com" ⟨{"a.com"}, false, []⟩ = (true, ⟨{"a.com"}, false, []⟩) ∧
    (duplicate "b.com" ⟨{"a.com"}, false, []⟩).1 = false ∧
    (duplicate "b.com" ⟨{"a.com"}, false, []⟩).2 = ⟨{"b.com", "a.com"}, false, []⟩ :=
  ⟨(duplicate_spec ⟨{"a.com"}, false, []⟩ "a.com").1 (by decide),
   ((duplicate_spec ⟨{"a.com"}, false, []⟩ "b.com").2 (by decide)).1,
   ((duplicate_spec ⟨{"a.com"}, false, []⟩ "b.com").2 (by decide)).2.1⟩

/-- C2: starting from a fresh service and after any sequence of operations
(direct `duplicate` calls, processed requests, timer ticks), `duplicate k`
returns `false` when `k` has not been recorded; and once `k` is recorded,
whether it was found in the filter or has just been added by `duplicate k`,
every `duplicate k` after any further operations returns `true`, because
operations only ever grow the filter. -/
theorem duplicate_forever (cfg : AmassConfig) (active : Bool) (k : String)
    (ops later : List Op) :
    (k ∉ (runOps cfg ops (NewBruteForceService active)).subdomains →
      (duplicate k (runOps cfg ops (NewBruteForceService active))).1 = false) ∧
    (k ∈ (runOps cfg ops (NewBruteForceService active)).subdomains →
      (duplicate k (runOps cfg later (runOps cfg ops (NewBruteForceService active)))).1
        = true) ∧
    (duplicate k (runOps cfg later
      (duplicate k (runOps cfg ops (NewBruteForceService active))).2)).1 = true ∧
    (runOps cfg ops (NewBruteForceService active)).subdomains ⊆
      (runOps cfg later (runOps cfg ops (NewBruteForceService active))).subdomains := by
  refine ⟨fun h => ?_, fun h => ?_, ?_, subset_runOps cfg later _⟩
  · simp [duplicate_fst, h]
  · simp [duplicate_fst, subset_runOps cfg later _ h]
  · have hk : k ∈ (duplicate k (runOps cfg ops (NewBruteForceService active))).2.subdomains := by
      simp [duplicate_subdomains]
    simp [duplicate_fst, subset_runOps cfg later _ hk]

/-- C2 at concrete runs: on the fresh service `duplicate "example.com"`
returns `false`; after a request for that domain has been processed, and a
timer tick later, it returns `true`. -/
theorem duplicate_forever_witness :
    (duplicate "example.com" (runOps ⟨true, true, ["www"]⟩ []
      (NewBruteForceService false))).1 = false ∧
    (duplicate "example.com" (runOps ⟨true, true, ["www"]⟩ [Op.tick]
      (runOps ⟨true, true, ["www"]⟩
        [Op.request ⟨"", "example.com", Tag.other "dns", "DNS"⟩]
        (NewBruteForceService false)))).1 = true :=
  ⟨(duplicate_forever ⟨true, true, ["www"]⟩ false "example.com" [] []).1 (by decide),
   (duplicate_forever ⟨true, true, ["www"]⟩ false "example.com"
      [Op.request ⟨"", "example.com", Tag.other "dns", "DNS"⟩] [Op.tick]).2.1 (by decide)⟩

/-! ## Admission of a request -/

/-- C3: with `BruteForcing` enabled, processing `req` in state `S` spawns
the recursive `performBruteForcing` call exactly when `Recursive` is enabled,
the name is non-empty and has at least three labels, the candidate (the name
without its leftmost label) is neither in the filter of `S` nor equal to the
domain, and `labelCount name - 1 > labelCount domain`; the spawned call is
then for `(candidate, domain)`; and whenever
`labelCount name - 1 ≤ labelCount domain` nothing recursive is spawned. -/
theorem recursive_batch_iff (cfg : AmassConfig) (hB : cfg.BruteForcing = true)
    (req : AmassRequest) (S : ServiceState) :
    ((checkForNewSubdomain cfg req S).recursive.isSome = true ↔
      (cfg.Recursive = true ∧ req.Name ≠ "" ∧ 3 ≤ labelCount req.Name ∧
        candidate req.Name ∉ S.subdomains ∧ candidate req.Name ≠ req.Domain ∧
        labelCount req.Name - 1 > labelCount req.Domain)) ∧
    (∀ b, (checkForNewSubdomain cfg req S).recursive = some b →
      b = (candidate req.Name, req.Domain)) ∧
    (labelCount req.Name - 1 ≤ labelCount req.Domain →
      (checkForNewSubdomain cfg req S).recursive = none) := by
  rw [checkForNewSubdomain_recursive]
  refine ⟨?_, ?_, ?_⟩
  · constructor
    · intro h
      split_ifs at h with hc
      · exact hc.2
      · simp at h
    · intro h
      simp only [if_pos (And.intro hB h), Option.isSome_some]
  · intro b hb
    by_cases hc : cfg.BruteForcing = true ∧ cfg.Recursive = true ∧ req.Name ≠ "" ∧
        3 ≤ labelCount req.Name ∧ candidate req.Name ∉ S.subdomains ∧
        candidate req.Name ≠ req.Domain ∧
        labelCount req.Domain < labelCount req.Name - 1
    · rw [if_pos hc] at hb
      exact (Option.some.inj hb).symm
    · rw [if_neg hc] at hb
      exact absurd hb (by simp)
  · intro hle
    rw [if_neg]
    intro hc
    have := hc.2.2.2.2.2.2
    omega

/-- C3 at the examples of the specification: `a.b.example.com` under
`example.com` spawns the recursive call on a fresh service, `a.example.com`
does not. -/
theorem recursive_batch_iff_witness :
    (checkForNewSubdomain ⟨true, true, ["www"]⟩
      ⟨"a.b.example.com", "example.com", Tag.other "dns", "DNS"⟩
      (NewBruteForceService false)).recursive.isSome = true ∧
    (checkForNewSubdomain ⟨true, true, ["www"]⟩
      ⟨"a.example.com", "example.com", Tag.other "dns", "DNS"⟩
      (NewBruteForceService false)).recursive = none :=
  ⟨(recursive_batch_iff ⟨true, true, ["www"]⟩ rfl
      ⟨"a.b.example.com", "example.com", Tag.other "dns", "DNS"⟩
      (NewBruteForceService false)).1.mpr (by decide),
   (recursive_batch_iff ⟨true, true, ["www"]⟩ rfl
      ⟨"a.example.com", "example.com", Tag.other "dns", "DNS"⟩
      (NewBruteForceService false)).2.2 (by decide)⟩

/-! ## The producer -/

/-- C4: for every subdomain, root and wordlist, the requests written by
`performBruteForcing` are, in some order, exactly one request per wordlist
entry, the request for the entry `w` having `Name = w + "." + subdomain`,
`Domain = root` and `Tag = BRUTE`: the output afterwards is a permutation of
the output before together with these requests; so exactly `len(w)` requests
are produced, the filter is not touched, and with an empty wordlist the
service is left as it was. -/
theorem performBruteForcing_spec (cfg : AmassConfig) (sub root : String)
    (s : ServiceState) :
    ((performBruteForcing cfg sub root s).output).Perm
      (s.output ++ cfg.Wordlist.map
        (fun w => { Name := w ++ "." ++ sub, Domain := root, Tag := Tag.BRUTE,
                    Source := "Brute Forcing" })) ∧
    (performBruteForcing cfg sub root s).output.length
      = s.output.length + cfg.Wordlist.length ∧
    (performBruteForcing cfg sub root s).subdomains = s.subdomains ∧
    performBruteForcing { cfg with Wordlist := [] } sub root s = s := by
  have hout := performBruteForcing_output cfg sub root s
  refine ⟨?_, ?_, performBruteForcing_subdomains cfg sub root s, rfl⟩
  · rw [hout]
    exact List.Perm.refl _
  · rw [hout]; simp

/-- C5: on a fresh service with `BruteForcing` enabled, whatever `Recursive`
is, the request with an empty name and domain `d` spawns exactly one
`performBruteForcing` call, for `(d, d)`, and the requests written are then,
in some order, exactly one request per wordlist entry, named `word + "." + d`
with `Domain = d`, `len(w)` requests in all. -/
theorem root_kickoff (cfg : AmassConfig) (hB : cfg.BruteForcing = true)
    (d : String) (tag : Tag) (src : String) (active : Bool) :
    (checkForNewSubdomain cfg ⟨"", d, tag, src⟩ (NewBruteForceService active)).batches
      = [(d, d)] ∧
    ((handleRequest cfg ⟨"", d, tag, src⟩ (NewBruteForceService active)).output).Perm
      (cfg.Wordlist.map
        (fun w => { Name := w ++ "." ++ d, Domain := d, Tag := Tag.BRUTE,
                    Source := "Brute Forcing" })) ∧
    (handleRequest cfg ⟨"", d, tag, src⟩ (NewBruteForceService active)).output.length
      = cfg.Wordlist.length := by
  have hb : (checkForNewSubdomain cfg ⟨"", d, tag, src⟩
      (NewBruteForceService active)).batches = [(d, d)] := by
    simp [Admission.batches, checkForNewSubdomain_kickoff,
      checkForNewSubdomain_recursive, hB, NewBruteForceService]
  have ho : (checkForNewSubdomain cfg ⟨"", d, tag, src⟩
      (NewBruteForceService active)).state.output = [] := by
    simp [checkForNewSubdomain, hB, duplicate_output, SetActive_output,
      NewBruteForceService]
  have hout : (handleRequest cfg ⟨"", d, tag, src⟩ (NewBruteForceService active)).output =
      cfg.Wordlist.map (bruteRequest d d) := by
    simp [handleRequest, runBatches_output, hb, ho]
  refine ⟨hb, ?_, ?_⟩
  · rw [hout]
    exact List.Perm.refl _
  · rw [hout, List.length_map]

/-- C5 for `example.com` and a two-word list, with recursion enabled: one
batch, and the two requests written are those for `mail` and `www`. -/
theorem root_kickoff_witness :
    (checkForNewSubdomain ⟨true, true, ["www", "mail"]⟩
      ⟨"", "example.com", Tag.other "dns", "DNS"⟩ (NewBruteForceService false)).batches
      = [("example.com", "example.com")] ∧
    ((handleRequest ⟨true, true, ["www", "mail"]⟩
      ⟨"", "example.com", Tag.other "dns", "DNS"⟩ (NewBruteForceService false)).output).Perm
      [⟨"mail.example.com", "example.com", Tag.BRUTE, "Brute Forcing"⟩,
       ⟨"www.example.com", "example.com", Tag.BRUTE, "Brute Forcing"⟩] :=
  ⟨(root_kickoff ⟨true, true, ["www", "mail"]⟩ rfl "example.com" (Tag.other "dns") "DNS"
      false).1,
   ((root_kickoff ⟨true, true, ["www", "mail"]⟩ rfl "example.com" (Tag.other "dns") "DNS"
      false).2.1).trans (List.Perm.swap _ _ [])⟩

/-! ## Sequences of requests -/

/-- C6: for every finite sequence of requests processed by a fresh service,
no two spawned `performBruteForcing` calls have the same subdomain key, so
no batch is spawned twice; and a request whose domain is the domain
of a request processed earlier in the sequence never spawns the root kickoff
again, whatever its name. -/
theorem no_duplicate_batches (cfg : AmassConfig) (reqs : List AmassRequest)
    (active : Bool) :
    ((processAll cfg reqs (NewBruteForceService active)).2.map Prod.fst).Nodup ∧
    (processAll cfg reqs (NewBruteForceService active)).2.Nodup ∧
    (∀ (pre mid : List AmassRequest) (r1 : AmassRequest) (name2 : String) (tag2 : Tag)
        (src2 : String),
      (checkForNewSubdomain cfg ⟨name2, r1.Domain, tag2, src2⟩
        (processAll cfg (pre ++ r1 :: mid) (NewBruteForceService active)).1).kickoff
        = none) := by
  have hnd := (processAll_keys cfg reqs (NewBruteForceService active)).1
  refine ⟨hnd, List.Nodup.of_map _ hnd, ?_⟩
  intro pre mid r1 name2 tag2 src2
  rw [checkForNewSubdomain_kickoff]
  by_cases hB : cfg.BruteForcing = true
  · have h1 : r1.Domain ∈ (processAll cfg (pre ++ r1 :: mid)
        (NewBruteForceService active)).1.subdomains := by
      rw [processAll_append]
      simp only [processAll]
      apply subset_processAll
      rw [runBatches_subdomains, checkForNewSubdomain_subdomains, if_pos hB]
      split_ifs <;> simp
    simp [h1]
  · simp [hB]

/-- C7, evaluation at a failing sequence.  The first request names a root
domain itself (`Name = Domain = x.b.example.com`): it records the candidate
`b.example.com` in the filter and then returns at the depth test
(`4 - 1 ≤ 4`) without spawning anything for it.  The second request
(`y.b.example.com` under `example.com`) has four labels and passes the depth
test (`4 - 1 > 2`), but finds its candidate `b.example.com` already recorded,
so the only batches ever spawned are the two root kickoffs and none has the
key `b.example.com`. -/
theorem missed_recursion_example :
    3 ≤ labelCount "y.b.example.com" ∧
    labelCount "y.b.example.com" - 1 > labelCount "example.com" ∧
    candidate "y.b.example.com" = "b.example.com" ∧
    HasSuffix "y.b.example.com" ("." ++ "example.com") ∧
    (processAll ⟨true, true, ["www"]⟩
      [⟨"x.b.example.com", "x.b.example.com", Tag.other "dns", "DNS"⟩,
       ⟨"y.b.example.com", "example.com", Tag.other "dns", "DNS"⟩]
      (NewBruteForceService false)).2
      = [("x.b.example.com", "x.b.example.com"), ("example.com", "example.com")] ∧
    "b.example.com" ∉ ((processAll ⟨true, true, ["www"]⟩
      [⟨"x.b.example.com", "x.b.example.com", Tag.other "dns", "DNS"⟩,
       ⟨"y.b.example.com", "example.com", Tag.other "dns", "DNS"⟩]
      (NewBruteForceService false)).2.map Prod.fst) ∧
    (processAll ⟨true, true, ["www"]⟩
      [⟨"x.b.example.com", "x.b.example.com", Tag.other "dns", "DNS"⟩]
      (NewBruteForceService false)).1.subdomains = {"b.example.com", "x.b.example.com"} ∧
    (processAll ⟨true, true, ["www"]⟩
      [⟨"x.b.example.com", "x.b.example.com", Tag.other "dns", "DNS"⟩]
      (NewBruteForceService false)).2 = [("x.b.example.com", "x.b.example.com")] := by
  decide

/-! ## Recursion admission and the feature flags -/

/-- C8: on a fresh service with `BruteForcing` and `Recursive` enabled, a
request whose name has `n ≥ 3` labels with `n - 1 > labelCount domain` gets
its candidate recorded and the recursive call spawned for
`(candidate, domain)`; the requests written are then, in some order, the
`len(wordlist)` requests of the root kickoff together with exactly one request
per wordlist entry with `Domain = domain` and
`Name = word + "." + candidate`, `len(wordlist)` of them. -/
theorem recursion_admitted (cfg : AmassConfig) (hB : cfg.BruteForcing = true)
    (hR : cfg.Recursive = true) (name domain : String) (tag : Tag) (src : String)
    (active : Bool) (h3 : 3 ≤ labelCount name)
    (hd : labelCount name - 1 > labelCount domain) :
    (checkForNewSubdomain cfg ⟨name, domain, tag, src⟩
      (NewBruteForceService active)).recursive = some (candidate name, domain) ∧
    candidate name ∈ (checkForNewSubdomain cfg ⟨name, domain, tag, src⟩
      (NewBruteForceService active)).state.subdomains ∧
    ((handleRequest cfg ⟨name, domain, tag, src⟩ (NewBruteForceService active)).output).Perm
      (cfg.Wordlist.map
        (fun w => { Name := w ++ "." ++ candidate name, Domain := domain, Tag := Tag.BRUTE,
                    Source := "Brute Forcing" }) ++
       cfg.Wordlist.map
        (fun w => { Name := w ++ "." ++ domain, Domain := domain, Tag := Tag.BRUTE,
                    Source := "Brute Forcing" })) ∧
    (cfg.Wordlist.map
        (fun w => ({ Name := w ++ "." ++ candidate name, Domain := domain, Tag := Tag.BRUTE,
                     Source := "Brute Forcing" } : AmassRequest))).length
      = cfg.Wordlist.length ∧
    (handleRequest cfg ⟨name, domain, tag, src⟩ (NewBruteForceService active)).output.length
      = cfg.Wordlist.length + cfg.Wordlist.length := by
  have hname : name ≠ "" := by
    rintro rfl
    rw [labelCount_empty] at h3
    omega
  have hcand : candidate name ≠ domain := by
    intro h
    have hl := labelCount_candidate name (by omega)
    rw [h] at hl
    omega
  have hrec : (checkForNewSubdomain cfg ⟨name, domain, tag, src⟩
      (NewBruteForceService active)).recursive = some (candidate name, domain) := by
    rw [checkForNewSubdomain_recursive, if_pos]
    exact ⟨hB, hR, hname, h3, by simp [NewBruteForceService], hcand, hd⟩
  have hkick : (checkForNewSubdomain cfg ⟨name, domain, tag, src⟩
      (NewBruteForceService active)).kickoff = some (domain, domain) := by
    rw [checkForNewSubdomain_kickoff, if_pos]
    exact ⟨hB, by simp [NewBruteForceService]⟩
  have hmem : candidate name ∈ (checkForNewSubdomain cfg ⟨name, domain, tag, src⟩
      (NewBruteForceService active)).state.subdomains := by
    rw [checkForNewSubdomain_subdomains, if_pos hB, if_pos ⟨hname, hR, h3⟩]
    simp
  have hout0 : (checkForNewSubdomain cfg ⟨name, domain, tag, src⟩
      (NewBruteForceService active)).state.output = [] := by
    simp only [checkForNewSubdomain]
    split_ifs <;> simp [duplicate_output, SetActive_output, NewBruteForceService]
  have hout : (handleRequest cfg ⟨name, domain, tag, src⟩
      (NewBruteForceService active)).output =
      cfg.Wordlist.map (bruteRequest domain domain) ++
      cfg.Wordlist.map (bruteRequest (candidate name) domain) := by
    simp [handleRequest, runBatches_output, Admission.batches, hrec, hkick, hout0]
  refine ⟨hrec, hmem, ?_, List.length_map _ _, ?_⟩
  · rw [hout]
    exact List.perm_append_comm
  · rw [hout]
    simp

/-- C8 at the example of the specification: `a.b.example.com` under
`example.com` with the wordlist `["www"]`: the recursive call is spawned for
`b.example.com` and the requests written are `www.b.example.com` and the
`www.example.com` of the root kickoff. -/
theorem recursion_admitted_witness :
    (checkForNewSubdomain ⟨true, true, ["www"]⟩
      ⟨"a.b.example.com", "example.com", Tag.other "dns", "DNS"⟩
      (NewBruteForceService false)).recursive = some ("b.example.com", "example.com") ∧
    ((handleRequest ⟨true, true, ["www"]⟩
      ⟨"a.b.example.com", "example.com", Tag.other "dns", "DNS"⟩
      (NewBruteForceService false)).output).Perm
      [⟨"www.b.example.com", "example.com", Tag.BRUTE, "Brute Forcing"⟩,
       ⟨"www.example.com", "example.com", Tag.BRUTE, "Brute Forcing"⟩] :=
  ⟨(recursion_admitted ⟨true, true, ["www"]⟩ rfl rfl "a.b.example.com" "example.com"
      (Tag.other "dns") "DNS" false (by decide) (by decide)).1,
   (recursion_admitted ⟨true, true, ["www"]⟩ rfl rfl "a.b.example.com" "example.com"
      (Tag.other "dns") "DNS" false (by decide) (by decide)).2.2.1⟩

/-- C9: with `BruteForcing` disabled, `checkForNewSubdomain` returns at once:
nothing is spawned, so no request is produced, and the whole service state
(filter, activity flag, output) is left as it was. -/
theorem disabled_noop (cfg : AmassConfig) (hB : cfg.BruteForcing = false)
    (req : AmassRequest) (s : ServiceState) :
    checkForNewSubdomain cfg req s = { state := s, kickoff := none, recursive := none } ∧
    (checkForNewSubdomain cfg req s).batches = [] ∧
    handleRequest cfg req s = s ∧
    (handleRequest cfg req s).output = s.output ∧
    (handleRequest cfg req s).subdomains = s.subdomains := by
  have h1 : checkForNewSubdomain cfg req s
      = { state := s, kickoff := none, recursive := none } := by
    simp [checkForNewSubdomain, hB]
  have h2 : handleRequest cfg req s = s := by
    simp [handleRequest, h1, Admission.batches, runBatches]
  refine ⟨h1, ?_, h2, ?_, ?_⟩
  · rw [h1]; rfl
  · rw [h2]
  · rw [h2]

/-- C9 at a request that would otherwise be admitted twice. -/
theorem disabled_noop_witness :
    handleRequest ⟨false, true, ["www"]⟩
      ⟨"a.b.example.com", "example.com", Tag.other "dns", "DNS"⟩
      (NewBruteForceService false) = NewBruteForceService false :=
  (disabled_noop ⟨false, true, ["www"]⟩ rfl
    ⟨"a.b.example.com", "example.com", Tag.other "dns", "DNS"⟩
    (NewBruteForceService false)).2.2.1

/-- C10: with `Recursive` disabled and `BruteForcing` enabled, for every
request and state, no recursive call is spawned whatever the label counts;
every spawned call is the root kickoff `(domain, domain)`; and the filter
afterwards is the old filter with the request's domain added, so the domain
is the only key that can be new. -/
theorem recursive_disabled (cfg : AmassConfig) (hB : cfg.BruteForcing = true)
    (hR : cfg.Recursive = false) (req : AmassRequest) (s : ServiceState) :
    (checkForNewSubdomain cfg req s).recursive = none ∧
    (∀ b ∈ (checkForNewSubdomain cfg req s).batches, b = (req.Domain, req.Domain)) ∧
    (checkForNewSubdomain cfg req s).state.subdomains = insert req.Domain s.subdomains ∧
    (handleRequest cfg req s).subdomains = insert req.Domain s.subdomains ∧
    (∀ k ∈ (handleRequest cfg req s).subdomains, k ∉ s.subdomains → k = req.Domain) := by
  have hrec : (checkForNewSubdomain cfg req s).recursive = none := by
    rw [checkForNewSubdomain_recursive, if_neg]
    intro hc
    rw [hR] at hc
    exact absurd hc.2.1 (by simp)
  have hsub : (checkForNewSubdomain cfg req s).state.subdomains
      = insert req.Domain s.subdomains := by
    rw [checkForNewSubdomain_subdomains, if_pos hB, if_neg]
    intro hc
    rw [hR] at hc
    exact absurd hc.2.1 (by simp)
  refine ⟨hrec, ?_, hsub, ?_, ?_⟩
  · intro b hb
    simp only [Admission.batches, hrec, Option.toList_none, List.append_nil,
      checkForNewSubdomain_kickoff] at hb
    split_ifs at hb
    · simpa using hb
    · simp at hb
  · rw [handleRequest_subdomains, hsub]
  · intro k hk hnot
    rw [handleRequest_subdomains, hsub, Finset.mem_insert] at hk
    rcases hk with h | h
    · exact h
    · exact absurd h hnot

/-- C10 at a deep name: `a.b.example.com` under `example.com` with recursion
off spawns only the root kickoff and records only `example.com`. -/
theorem recursive_disabled_witness :
    (checkForNewSubdomain ⟨true, false, ["www"]⟩
      ⟨"a.b.example.com", "example.com", Tag.other "dns", "DNS"⟩
      (NewBruteForceService false)).recursive = none ∧
    (handleRequest ⟨true, false, ["www"]⟩
      ⟨"a.b.example.com", "example.com", Tag.other "dns", "DNS"⟩
      (NewBruteForceService false)).subdomains = {"example.com"} :=
  ⟨(recursive_disabled ⟨true, false, ["www"]⟩ rfl rfl
      ⟨"a.b.example.com", "example.com", Tag.other "dns", "DNS"⟩
      (NewBruteForceService false)).1,
   (recursive_disabled ⟨true, false, ["www"]⟩ rfl rfl
      ⟨"a.b.example.com", "example.com", Tag.other "dns", "DNS"⟩
      (NewBruteForceService false)).2.2.2.1⟩

/-! ## The activity flag -/

theorem sendOut_active (req : AmassRequest) (s : ServiceState) :
    (sendOut req s).active = true := rfl

theorem foldl_sendOut_active (sub root : String) (ws : List String) (s : ServiceState)
    (h : s.active = true) :
    (ws.foldl (fun st word => sendOut (bruteRequest sub root word) st) s).active = true := by
  induction ws generalizing s with
  | nil => exact h
  | cons w ws ih => exact ih _ (sendOut_active _ _)

theorem runBatches_active (cfg : AmassConfig) (bs : List Batch) (s : ServiceState)
    (h : s.active = true) : (runBatches cfg bs s).active = true := by
  induction bs generalizing s with
  | nil => exact h
  | cons b bs ih =>
    simp only [runBatches, List.foldl_cons] at ih ⊢
    exact ih _ (foldl_sendOut_active b.1 b.2 cfg.Wordlist s h)

theorem checkForNewSubdomain_active (cfg : AmassConfig) (req : AmassRequest)
    (s : ServiceState) :
    (checkForNewSubdomain cfg req s).state.active =
      if cfg.BruteForcing = true then true else s.active := by
  by_cases hB : cfg.BruteForcing = true
  · simp only [checkForNewSubdomain, hB, if_true, Bool.not_true, Bool.false_eq_true, if_false]
    split_ifs <;> simp [duplicate_active, SetActive]
  · simp [checkForNewSubdomain, hB]

theorem checkForNewSubdomain_output (cfg : AmassConfig) (req : AmassRequest)
    (s : ServiceState) :
    (checkForNewSubdomain cfg req s).state.output = s.output := by
  simp only [checkForNewSubdomain]
  split_ifs <;> simp [duplicate_output, SetActive_output]

theorem handleRequest_output (cfg : AmassConfig) (req : AmassRequest) (s : ServiceState) :
    (handleRequest cfg req s).output = s.output ++
      ((checkForNewSubdomain cfg req s).batches.map
        (fun b => cfg.Wordlist.map (bruteRequest b.1 b.2))).flatten := by
  simp [handleRequest, runBatches_output, checkForNewSubdomain_output]

theorem emitted_eq (cfg : AmassConfig) (req : AmassRequest) (s : ServiceState) :
    emitted cfg req s = ((checkForNewSubdomain cfg req s).batches.map
        (fun b => cfg.Wordlist.map (bruteRequest b.1 b.2))).flatten := by
  simp [emitted, handleRequest_output]

theorem handleRequest_disabled (cfg : AmassConfig) (hB : cfg.BruteForcing = false)
    (req : AmassRequest) (s : ServiceState) : handleRequest cfg req s = s := by
  simp [handleRequest, checkForNewSubdomain, hB, Admission.batches, runBatches]

/-- C11, counterexample: with `BruteForcing` disabled a running loop that
handles an inbound request leaves the activity flag `false`, because
`checkForNewSubdomain` returns before `SetActive(true)` and the loop itself
never sets the flag. -/
theorem active_not_set_when_disabled :
    (processRequestsStep ⟨false, true, ["www"]⟩
      (Event.input ⟨"a.b.example.com", "example.com", Tag.other "dns", "DNS"⟩)
      (OnStart (NewBruteForceService false))).service.active = false ∧
    (processRequestsStep ⟨false, true, ["www"]⟩
      (Event.input ⟨"a.b.example.com", "example.com", Tag.other "dns", "DNS"⟩)
      (OnStart (NewBruteForceService false))).dispatched
      = [⟨"a.b.example.com", "example.com", Tag.other "dns", "DNS"⟩] := by
  decide

/-- C11, amended: for every inbound request handled by a running loop, the
activity flag is `true` afterwards when `BruteForcing` is enabled, and is left
as it was when `BruteForcing` is disabled. -/
theorem active_after_inbound (cfg : AmassConfig) (req : AmassRequest) (l : Loop)
    (hrun : l.status = LoopStatus.Running) :
    (cfg.BruteForcing = true →
      (processRequestsStep cfg (Event.input req) l).service.active = true) ∧
    (cfg.BruteForcing = false →
      (processRequestsStep cfg (Event.input req) l).service.active = l.service.active) := by
  have hstep : (processRequestsStep cfg (Event.input req) l).service
      = handleRequest cfg req l.service := by
    simp [processRequestsStep, hrun]
  rw [hstep]
  constructor
  · intro hB
    apply runBatches_active
    rw [checkForNewSubdomain_active, if_pos hB]
  · intro hB
    rw [handleRequest_disabled cfg hB]

/-- C11, amended, at concrete loops: enabled sets the flag, disabled keeps
the `false` it found. -/
theorem active_after_inbound_witness :
    (processRequestsStep ⟨true, true, ["www"]⟩
      (Event.input ⟨"a.b.example.com", "example.com", Tag.other "dns", "DNS"⟩)
      (OnStart (NewBruteForceService false))).service.active = true ∧
    (processRequestsStep ⟨false, true, ["www"]⟩
      (Event.input ⟨"", "example.com", Tag.other "dns", "DNS"⟩)
      (OnStart (NewBruteForceService false))).service.active = false :=
  ⟨(active_after_inbound ⟨true, true, ["www"]⟩
      ⟨"a.b.example.com", "example.com", Tag.other "dns", "DNS"⟩
      (OnStart (NewBruteForceService false)) rfl).1 rfl,
   (active_after_inbound ⟨false, true, ["www"]⟩
      ⟨"", "example.com", Tag.other "dns", "DNS"⟩
      (OnStart (NewBruteForceService false)) rfl).2 rfl⟩

/-- C12, counterexample: after a timer tick has cleared the flag, delivering
one produced request through `sendOut` sets it to `true` again, with no
inbound request in between. -/
theorem sendOut_changes_active :
    (SetActive false (NewBruteForceService true)).active = false ∧
    (sendOut ⟨"www.example.com", "example.com", Tag.BRUTE, "Brute Forcing"⟩
      (SetActive false (NewBruteForceService true))).active = true := by
  decide

/-- C12, amended: the activity flag is set by outbound production too.  For
every request and state, `sendOut` appends the request to the output, leaves
the filter alone and sets the flag to `true`, also right after a timer tick
has cleared it; a timer tick of a running loop clears the flag. -/
theorem sendOut_sets_active (cfg : AmassConfig) (req : AmassRequest) (s : ServiceState)
    (d : List AmassRequest) :
    (sendOut req s).active = true ∧
    (sendOut req s).output = s.output ++ [req] ∧
    (sendOut req s).subdomains = s.subdomains ∧
    (processRequestsStep cfg Event.timer ⟨LoopStatus.Running, s, d⟩).service.active
      = false ∧
    (sendOut req
      (processRequestsStep cfg Event.timer ⟨LoopStatus.Running, s, d⟩).service).active
      = true :=
  ⟨rfl, rfl, rfl, rfl, rfl⟩

/-! ## Shutdown -/

theorem processRequestsStep_stopped (cfg : AmassConfig) (ev : Event) (l : Loop)
    (h : l.status = LoopStatus.Stopped) : processRequestsStep cfg ev l = l := by
  simp [processRequestsStep, h]

theorem processRequests_stopped (cfg : AmassConfig) (evs : List Event) (l : Loop)
    (h : l.status = LoopStatus.Stopped) : processRequests cfg evs l = l := by
  induction evs with
  | nil => rfl
  | cons ev evs ih =>
    simp only [processRequests, List.foldl_cons] at ih ⊢
    rw [processRequestsStep_stopped cfg ev l h]
    exact ih

theorem processRequestsStep_quit_status (cfg : AmassConfig) (l : Loop) :
    (processRequestsStep cfg Event.quit l).status = LoopStatus.Stopped := by
  cases hs : l.status <;> simp [processRequestsStep, hs]

theorem processRequestsStep_quit_service (cfg : AmassConfig) (l : Loop) :
    (processRequestsStep cfg Event.quit l).service = l.service ∧
    (processRequestsStep cfg Event.quit l).dispatched = l.dispatched := by
  cases hs : l.status <;> simp [processRequestsStep, hs]

theorem processRequests_append (cfg : AmassConfig) (xs ys : List Event) (l : Loop) :
    processRequests cfg (xs ++ ys) l = processRequests cfg ys (processRequests cfg xs l) := by
  simp [processRequests, List.foldl_append]

/-- C13: in the step model of the processing loop over `Running` and
`Stopped` with the events inbound request, timer tick and cancellation, the
loop is `Stopped` once it has taken the cancellation event; `Stopped` is
terminal, so whatever events follow (inbound requests included) the loop
stays as the cancellation left it: nothing more is handed to
`checkForNewSubdomain` and the output channel receives nothing more. -/
theorem graceful_shutdown (cfg : AmassConfig) (pre post : List Event) (l : Loop) :
    (processRequests cfg (pre ++ [Event.quit]) l).status = LoopStatus.Stopped ∧
    processRequests cfg (pre ++ Event.quit :: post) l
      = processRequests cfg (pre ++ [Event.quit]) l ∧
    (processRequests cfg (pre ++ Event.quit :: post) l).dispatched
      = (processRequests cfg pre l).dispatched ∧
    (processRequests cfg (pre ++ Event.quit :: post) l).service.output
      = (processRequests cfg pre l).service.output := by
  have hq : processRequests cfg (pre ++ [Event.quit]) l
      = processRequestsStep cfg Event.quit (processRequests cfg pre l) := by
    rw [processRequests_append]
    rfl
  have hst : (processRequests cfg (pre ++ [Event.quit]) l).status = LoopStatus.Stopped := by
    rw [hq]
    exact processRequestsStep_quit_status cfg _
  have hall : processRequests cfg (pre ++ Event.quit :: post) l
      = processRequests cfg (pre ++ [Event.quit]) l := by
    have : pre ++ Event.quit :: post = (pre ++ [Event.quit]) ++ post := by simp
    rw [this, processRequests_append]
    exact processRequests_stopped cfg post _ hst
  refine ⟨hst, hall, ?_, ?_⟩
  · rw [hall, hq, (processRequestsStep_quit_service cfg _).2]
  · rw [hall, hq, (processRequestsStep_quit_service cfg _).1]

/-! ## The source string -/

/-- C15, counterexample: the request produced for the word `www` carries the
source string `Brute Forcing`, which is not the string `brute-force`. -/
theorem source_string_example :
    (performBruteForcing ⟨true, true, ["www"]⟩ "example.com" "example.com"
      (NewBruteForceService false)).output.map (fun r => r.Source) = ["Brute Forcing"] ∧
    "Brute Forcing" ≠ "brute-force" := by
  decide

/-- C15, amended: every request `performBruteForcing` writes to the output
carries the source string `Brute Forcing`. -/
theorem source_string (cfg : AmassConfig) (sub root : String) (s : ServiceState) :
    ∀ r ∈ (performBruteForcing cfg sub root s).output.drop s.output.length,
      r.Source = "Brute Forcing" := by
  intro r hr
  rw [performBruteForcing_output, List.drop_left] at hr
  obtain ⟨w, _, rfl⟩ := List.mem_map.mp hr
  rfl

/-- C15, amended, at the request produced for `www` under `example.com`. -/
theorem source_string_witness :
    (⟨"www.example.com", "example.com", Tag.BRUTE, "Brute Forcing"⟩ : AmassRequest) ∈
      (performBruteForcing ⟨true, true, ["www"]⟩ "example.com" "example.com"
        (NewBruteForceService false)).output.drop 0 ∧
    (⟨"www.example.com", "example.com", Tag.BRUTE, "Brute Forcing"⟩ : AmassRequest).Source
      = "Brute Forcing" :=
  ⟨by decide,
   source_string ⟨true, true, ["www"]⟩ "example.com" "example.com"
    (NewBruteForceService false)
    ⟨"www.example.com", "example.com", Tag.BRUTE, "Brute Forcing"⟩ (by decide)⟩

/-! ## More on labels -/

theorem splitOn_append_sep (xs ys : List Char) :
    (xs ++ '.' :: ys).splitOn '.' = xs.splitOn '.' ++ ys.splitOn '.' := by
  induction xs with
  | nil => simp [List.splitOn, List.splitOnP_cons]
  | cons x xs ih =>
    simp only [List.splitOn] at ih ⊢
    rw [List.cons_append, List.splitOnP_cons, List.splitOnP_cons, ih]
    by_cases hx : (x == '.') = true
    · simp [hx]
    · simp only [hx, Bool.false_eq_true, if_false]
      cases hs : List.splitOnP (fun c => c == '.') xs with
      | nil => exact absurd hs (List.splitOnP_ne_nil _ xs)
      | cons hd tl => simp

theorem splitOn_of_not_mem (xs : List Char) (h : '.' ∉ xs) : xs.splitOn '.' = [xs] := by
  unfold List.splitOn
  apply List.splitOnP_eq_single
  intro c hc hp
  have : c = '.' := by simpa using hp
  exact h (this ▸ hc)

theorem data_dot_append (w x : String) : (w ++ "." ++ x).data = w.data ++ '.' :: x.data := by
  simp [String.data_append]

theorem Split_append_sep (p d : String) : Split (p ++ "." ++ d) = Split p ++ Split d := by
  simp [Split, data_dot_append, splitOn_append_sep]

theorem Split_of_not_mem (w : String) (h : '.' ∉ w.data) : Split w = [w] := by
  simp [Split, splitOn_of_not_mem w.data h]

theorem Join_Split (x : String) : Join (Split x) = x := by
  unfold Join Split
  rw [List.map_map]
  have hid : (String.data ∘ String.mk) = id := by funext l; rfl
  rw [hid, List.map_id, List.intercalate_splitOn]

theorem Split_word (w x : String) (h : '.' ∉ w.data) :
    Split (w ++ "." ++ x) = w :: Split x := by
  rw [Split_append_sep, Split_of_not_mem w h]
  rfl

theorem candidate_word (w x : String) (h : '.' ∉ w.data) :
    candidate (w ++ "." ++ x) = x := by
  unfold candidate
  rw [Split_word w x h]
  exact Join_Split x

theorem intercalate_cons_cons (h h2 : List Char) (t : List (List Char)) :
    List.intercalate ['.'] (h :: h2 :: t) = h ++ '.' :: List.intercalate ['.'] (h2 :: t) := by
  simp [List.intercalate, List.intersperse]

theorem Join_cons_cons (h h2 : String) (t : List String) :
    Join (h :: h2 :: t) = h ++ "." ++ Join (h2 :: t) := by
  apply String.ext
  rw [data_dot_append]
  simp only [Join, List.map_cons]
  exact intercalate_cons_cons _ _ _

/-! ## Work done for one request -/

/-- C16: for every configuration, request and state, processing one request
spawns at most the root kickoff `(domain, domain)` and at most the recursive
call `(candidate, domain)`, hence 0, 1 or 2 batches; it writes one request
per batch and wordlist entry (0, `L` or `2L` requests); the filter only grows,
by keys among the domain and the candidate, so by at most two keys; with
`BruteForcing` enabled the domain is always recorded by the kickoff check; and
there is a request for which both batches are spawned. -/
theorem one_request_work (cfg : AmassConfig) (req : AmassRequest) (s : ServiceState) :
    ((checkForNewSubdomain cfg req s).kickoff = none ∨
      (checkForNewSubdomain cfg req s).kickoff = some (req.Domain, req.Domain)) ∧
    ((checkForNewSubdomain cfg req s).recursive = none ∨
      (checkForNewSubdomain cfg req s).recursive = some (candidate req.Name, req.Domain)) ∧
    (checkForNewSubdomain cfg req s).batches.length ≤ 2 ∧
    (handleRequest cfg req s).output = s.output ++ emitted cfg req s ∧
    (emitted cfg req s).length
      = (checkForNewSubdomain cfg req s).batches.length * cfg.Wordlist.length ∧
    s.subdomains ⊆ (handleRequest cfg req s).subdomains ∧
    (handleRequest cfg req s).subdomains ⊆
      insert (candidate req.Name) (insert req.Domain s.subdomains) ∧
    (handleRequest cfg req s).subdomains.card ≤ s.subdomains.card + 2 ∧
    (cfg.BruteForcing = true → req.Domain ∈ (handleRequest cfg req s).subdomains) ∧
    (∃ (cfg0 : AmassConfig) (req0 : AmassRequest) (s0 : ServiceState),
      (checkForNewSubdomain cfg0 req0 s0).kickoff.isSome = true ∧
      (checkForNewSubdomain cfg0 req0 s0).recursive.isSome = true ∧
      (checkForNewSubdomain cfg0 req0 s0).batches.length = 2) := by
  have hk : (checkForNewSubdomain cfg req s).kickoff = none ∨
      (checkForNewSubdomain cfg req s).kickoff = some (req.Domain, req.Domain) := by
    rw [checkForNewSubdomain_kickoff]
    split_ifs
    · exact Or.inr rfl
    · exact Or.inl rfl
  have hr : (checkForNewSubdomain cfg req s).recursive = none ∨
      (checkForNewSubdomain cfg req s).recursive = some (candidate req.Name, req.Domain) := by
    rw [checkForNewSubdomain_recursive]
    split_ifs
    · exact Or.inr rfl
    · exact Or.inl rfl
  have hlen : (checkForNewSubdomain cfg req s).batches.length ≤ 2 := by
    unfold Admission.batches
    rcases hk with h1 | h1 <;> rcases hr with h2 | h2 <;> simp [h1, h2]
  have hsub : (handleRequest cfg req s).subdomains ⊆
      insert (candidate req.Name) (insert req.Domain s.subdomains) := by
    rw [handleRequest_subdomains, checkForNewSubdomain_subdomains]
    intro x hx
    split_ifs at hx <;> simp_all
  refine ⟨hk, hr, hlen, ?_, ?_, ?_, hsub, ?_, ?_, ?_⟩
  · rw [emitted_eq, handleRequest_output]
  · rw [emitted_eq]
    generalize (checkForNewSubdomain cfg req s).batches = bs
    induction bs with
    | nil => simp
    | cons b bs ih =>
      simp only [List.map_cons, List.flatten_cons, List.length_append, List.length_map,
        List.length_cons, ih]
      ring
  · rw [handleRequest_subdomains]
    exact subset_checkForNewSubdomain cfg req s
  · calc (handleRequest cfg req s).subdomains.card
        ≤ (insert (candidate req.Name) (insert req.Domain s.subdomains)).card :=
          Finset.card_le_card hsub
      _ ≤ (insert req.Domain s.subdomains).card + 1 := Finset.card_insert_le _ _
      _ ≤ (s.subdomains.card + 1) + 1 :=
          Nat.add_le_add_right (Finset.card_insert_le _ _) 1
  · intro hB
    rw [handleRequest_subdomains, checkForNewSubdomain_subdomains, if_pos hB]
    split_ifs <;> simp
  · exact ⟨⟨true, true, ["www"]⟩,
      ⟨"a.b.example.com", "example.com", Tag.other "dns", "DNS"⟩,
      NewBruteForceService false, by decide⟩

/-- C16 at `a.b.example.com` under `example.com` on a fresh service with the
wordlist `["www"]`: the domain is recorded and two requests are written. -/
theorem one_request_work_witness :
    "example.com" ∈ (handleRequest ⟨true, true, ["www"]⟩
      ⟨"a.b.example.com", "example.com", Tag.other "dns", "DNS"⟩
      (NewBruteForceService false)).subdomains ∧
    (emitted ⟨true, true, ["www"]⟩
      ⟨"a.b.example.com", "example.com", Tag.other "dns", "DNS"⟩
      (NewBruteForceService false)).length = 2 :=
  ⟨(one_request_work ⟨true, true, ["www"]⟩
      ⟨"a.b.example.com", "example.com", Tag.other "dns", "DNS"⟩
      (NewBruteForceService false)).2.2.2.2.2.2.2.2.1 rfl,
   by decide⟩

/-- C17: for every name with at least two labels, the candidate
`Join(Split(name, ".")[1:], ".")` satisfies
`name = firstLabel + "." + candidate` and has one label less than the name;
hence for every domain the test `num-1 <= len(Split(domain, "."))` of the
code holds exactly when the candidate does not have strictly more labels than
the domain. -/
theorem candidate_labels (name : String) (h : 2 ≤ labelCount name) :
    name = (Split name).headD "" ++ "." ++ candidate name ∧
    labelCount (candidate name) = labelCount name - 1 ∧
    ∀ domain : String,
      (labelCount name - 1 ≤ labelCount domain ↔
        ¬ labelCount domain < labelCount (candidate name)) := by
  have hl := labelCount_candidate name h
  refine ⟨?_, hl, fun domain => by rw [hl]; omega⟩
  unfold labelCount at h
  have hj := Join_Split name
  unfold candidate
  cases hs : Split name with
  | nil => rw [hs] at h; simp at h
  | cons a t =>
    cases t with
    | nil => rw [hs] at h; simp at h
    | cons b t =>
      rw [hs, Join_cons_cons] at hj
      simpa using hj.symm

/-- C17 at `a.example.com`: first label `a`, candidate `example.com`, and
three labels against two. -/
theorem candidate_labels_witness :
    "a.example.com" = (Split "a.example.com").headD "" ++ "." ++ candidate "a.example.com" ∧
    labelCount (candidate "a.example.com") = labelCount "a.example.com" - 1 :=
  ⟨(candidate_labels "a.example.com" (by decide)).1,
   (candidate_labels "a.example.com" (by decide)).2.1⟩

/-! ## Names under their root -/

theorem Join_singleton (a : String) : Join [a] = a := by
  apply String.ext
  simp [Join, List.intercalate, List.intersperse]

theorem Join_append (xs ys : List String) (hx : xs ≠ []) (hy : ys ≠ []) :
    Join (xs ++ ys) = Join xs ++ "." ++ Join ys := by
  induction xs with
  | nil => exact absurd rfl hx
  | cons a t ih =>
    cases t with
    | nil =>
      cases ys with
      | nil => exact absurd rfl hy
      | cons y ys => rw [Join_singleton, List.singleton_append, Join_cons_cons]
    | cons b t =>
      have h := ih (List.cons_ne_nil b t)
      rw [List.cons_append, List.cons_append, Join_cons_cons, ← List.cons_append, h,
        Join_cons_cons]
      simp [String.append_assoc]

theorem HasSuffix_dot_append (x d : String) : HasSuffix (x ++ "." ++ d) ("." ++ d) := by
  unfold HasSuffix
  rw [data_dot_append]
  have : ("." ++ d).data = '.' :: d.data := by simp [String.data_append]
  rw [this]
  exact List.suffix_append _ _

theorem HasSuffix_word (w k suf : String) (h : HasSuffix k suf) :
    HasSuffix (w ++ "." ++ k) suf := by
  unfold HasSuffix at h ⊢
  rw [data_dot_append]
  exact h.trans (List.suffix_append (w.data ++ ['.']) k.data |> fun hs => by simpa using hs)

theorem exists_of_HasSuffix (name d : String) (h : HasSuffix name ("." ++ d)) :
    ∃ p : String, name = p ++ "." ++ d := by
  unfold HasSuffix at h
  obtain ⟨pre, hpre⟩ := h
  refine ⟨String.mk pre, ?_⟩
  apply String.ext
  rw [data_dot_append, ← hpre]
  simp [String.data_append]

/-- The candidate of a name under `d` is `d` itself or again a name under `d`. -/
theorem candidate_under (p d : String) :
    candidate (p ++ "." ++ d) = d ∨ HasSuffix (candidate (p ++ "." ++ d)) ("." ++ d) := by
  unfold candidate
  rw [Split_append_sep]
  have hd : Split d ≠ [] := by
    have := labelCount_pos d
    unfold labelCount at this
    exact List.ne_nil_of_length_pos this
  cases hs : Split p with
  | nil =>
    have := labelCount_pos p
    unfold labelCount at this
    rw [hs] at this
    simp at this
  | cons a t =>
    cases t with
    | nil =>
      left
      simpa using Join_Split d
    | cons b t =>
      right
      have : List.drop 1 (a :: b :: t ++ Split d) = (b :: t) ++ Split d := by simp
      rw [this, Join_append _ _ (List.cons_ne_nil b t) hd, Join_Split]
      exact HasSuffix_dot_append _ _

theorem mem_emitted (cfg : AmassConfig) (req : AmassRequest) (s : ServiceState)
    (r : AmassRequest) (h : r ∈ emitted cfg req s) :
    ∃ b ∈ (checkForNewSubdomain cfg req s).batches, ∃ w ∈ cfg.Wordlist,
      r = bruteRequest b.1 b.2 w := by
  rw [emitted_eq] at h
  simp only [List.mem_flatten, List.mem_map] at h
  obtain ⟨l, ⟨b, hb, rfl⟩, hr⟩ := h
  obtain ⟨w, hw, rfl⟩ := List.mem_map.mp hr
  exact ⟨b, hb, w, hw, rfl⟩

/-- A spawned batch is the root kickoff `(domain, domain)` or the recursive
call `(candidate, domain)` with an admitted candidate. -/
theorem mem_batches (cfg : AmassConfig) (req : AmassRequest) (s : ServiceState)
    (b : Batch) (h : b ∈ (checkForNewSubdomain cfg req s).batches) :
    (cfg.BruteForcing = true ∧ b = (req.Domain, req.Domain)) ∨
    (cfg.BruteForcing = true ∧ candidate req.Name ≠ req.Domain ∧
      b = (candidate req.Name, req.Domain)) := by
  simp only [Admission.batches, checkForNewSubdomain_kickoff, checkForNewSubdomain_recursive,
    List.mem_append] at h
  rcases h with h | h
  · split_ifs at h with hc
    · left
      exact ⟨hc.1, by simpa using h⟩
    · simp at h
  · split_ifs at h with hc
    · right
      exact ⟨hc.1, hc.2.2.2.2.2.1, by simpa using h⟩
    · simp at h

/-- C18: for every request whose name ends with `"." + Domain`, every
request written while it is processed, by the root kickoff or by the
recursive batch, has a name that ends with `"." +` its own domain; and a
candidate for which the recursive call is spawned ends with `"." + Domain`
and differs from `Domain`. -/
theorem names_under_root (cfg : AmassConfig) (req : AmassRequest) (s : ServiceState)
    (h : HasSuffix req.Name ("." ++ req.Domain)) :
    (∀ r ∈ emitted cfg req s, HasSuffix r.Name ("." ++ r.Domain)) ∧
    (∀ b, (checkForNewSubdomain cfg req s).recursive = some b →
      b = (candidate req.Name, req.Domain) ∧
      HasSuffix b.1 ("." ++ req.Domain) ∧ b.1 ≠ req.Domain) := by
  obtain ⟨p, hp⟩ := exists_of_HasSuffix req.Name req.Domain h
  have hcand : candidate req.Name ≠ req.Domain →
      HasSuffix (candidate req.Name) ("." ++ req.Domain) := by
    intro hne
    rcases candidate_under p req.Domain with hc | hc
    · rw [← hp] at hc
      exact absurd hc hne
    · rwa [← hp] at hc
  constructor
  · intro r hr
    obtain ⟨b, hb, w, _, rfl⟩ := mem_emitted cfg req s r hr
    rcases mem_batches cfg req s b hb with ⟨_, rfl⟩ | ⟨_, hne, rfl⟩
    · exact HasSuffix_dot_append w req.Domain
    · exact HasSuffix_word w _ _ (hcand hne)
  · intro b hb
    have hmem : b ∈ (checkForNewSubdomain cfg req s).batches := by
      simp [Admission.batches, hb]
    rw [checkForNewSubdomain_recursive] at hb
    split_ifs at hb with hc
    have hbe : b = (candidate req.Name, req.Domain) := (Option.some.inj hb).symm
    subst hbe
    exact ⟨rfl, hcand hc.2.2.2.2.2.1, hc.2.2.2.2.2.1⟩

/-- C18 at `a.b.example.com` under `example.com`: the request written for
the word `www` and the candidate `b.example.com` is under `example.com`. -/
theorem names_under_root_witness :
    HasSuffix "a.b.example.com" ("." ++ "example.com") ∧
    HasSuffix "www.b.example.com" ("." ++ "example.com") :=
  ⟨by decide,
   (names_under_root ⟨true, true, ["www"]⟩
      ⟨"a.b.example.com", "example.com", Tag.other "dns", "DNS"⟩
      (NewBruteForceService false) (by decide)).1
      ⟨"www.b.example.com", "example.com", Tag.BRUTE, "Brute Forcing"⟩ (by decide)⟩

/-! ## Feeding the output back -/

/-- A request named `w + "." + k` with a dot-free `w`, arriving when both its
domain and `k` are recorded, spawns nothing and records nothing. -/
theorem checkForNewSubdomain_known (cfg : AmassConfig) (w k d : String) (tag : Tag)
    (src : String) (s : ServiceState) (hw : '.' ∉ w.data) (hd : d ∈ s.subdomains)
    (hk : k ∈ s.subdomains) :
    (checkForNewSubdomain cfg ⟨w ++ "." ++ k, d, tag, src⟩ s).batches = [] ∧
    (checkForNewSubdomain cfg ⟨w ++ "." ++ k, d, tag, src⟩ s).state.subdomains
      = s.subdomains := by
  constructor
  · simp [Admission.batches, checkForNewSubdomain_kickoff, checkForNewSubdomain_recursive,
      candidate_word w k hw, hd, hk]
  · rw [checkForNewSubdomain_subdomains]
    simp only [candidate_word w k hw]
    split_ifs <;> simp [Finset.insert_eq_of_mem, hd, hk]

/-- C19: if no wordlist entry contains a dot, then for every request `req`
and every state, once `req` has been processed, processing any request that
was written for it spawns no batch, writes nothing and leaves the filter as
it is. -/
theorem feedback_no_work (cfg : AmassConfig) (hw : ∀ w ∈ cfg.Wordlist, '.' ∉ w.data)
    (req : AmassRequest) (s : ServiceState) :
    ∀ e ∈ emitted cfg req s,
      (checkForNewSubdomain cfg e (handleRequest cfg req s)).batches = [] ∧
      emitted cfg e (handleRequest cfg req s) = [] ∧
      (handleRequest cfg e (handleRequest cfg req s)).subdomains
        = (handleRequest cfg req s).subdomains := by
  intro e he
  obtain ⟨b, hb, w, hwm, rfl⟩ := mem_emitted cfg req s e he
  have hkey : b.1 ∈ (handleRequest cfg req s).subdomains := by
    rw [handleRequest_subdomains]
    exact ((batches_keys cfg req s).2 b.1 (List.mem_map_of_mem _ hb)).2
  have hroot : b.2 ∈ (handleRequest cfg req s).subdomains := by
    rw [handleRequest_subdomains, checkForNewSubdomain_subdomains]
    rcases mem_batches cfg req s b hb with ⟨hB, rfl⟩ | ⟨hB, _, rfl⟩ <;>
      (rw [if_pos hB]; split_ifs <;> simp)
  obtain ⟨h1, h2⟩ := checkForNewSubdomain_known cfg w b.1 b.2 Tag.BRUTE "Brute Forcing"
    (handleRequest cfg req s) (hw w hwm) hroot hkey
  have h1b : (checkForNewSubdomain cfg (bruteRequest b.1 b.2 w)
      (handleRequest cfg req s)).batches = [] := h1
  refine ⟨h1b, ?_, ?_⟩
  · rw [emitted_eq, h1b]
    rfl
  · rw [handleRequest_subdomains]
    exact h2

/-- C19 at `a.b.example.com` under `example.com` with the wordlist `["www"]`:
feeding `www.b.example.com` back spawns nothing. -/
theorem feedback_no_work_witness :
    (checkForNewSubdomain ⟨true, true, ["www"]⟩
      ⟨"www.b.example.com", "example.com", Tag.BRUTE, "Brute Forcing"⟩
      (handleRequest ⟨true, true, ["www"]⟩
        ⟨"a.b.example.com", "example.com", Tag.other "dns", "DNS"⟩
        (NewBruteForceService false))).batches = [] :=
  (feedback_no_work ⟨true, true, ["www"]⟩ (by decide)
    ⟨"a.b.example.com", "example.com", Tag.other "dns", "DNS"⟩
    (NewBruteForceService false)
    ⟨"www.b.example.com", "example.com", Tag.BRUTE, "Brute Forcing"⟩ (by decide)).1

/-! ## Where the recursion cannot be missed -/

/-- For a name strictly under `d`, a candidate other than `d` passes the depth
test. -/
theorem depth_of_candidate_ne (p d : String) (h : candidate (p ++ "." ++ d) ≠ d) :
    labelCount d < labelCount (p ++ "." ++ d) - 1 := by
  unfold candidate at h
  unfold labelCount
  rw [Split_append_sep] at h ⊢
  cases hs : Split p with
  | nil =>
    have := labelCount_pos p
    unfold labelCount at this
    rw [hs] at this
    simp at this
  | cons a t =>
    cases t with
    | nil =>
      rw [hs] at h
      exact absurd (by simpa using Join_Split d) h
    | cons b t =>
      simp only [List.length_append, List.length_cons]
      omega

/-- When the name of a request is empty or strictly under its domain, every
key in the filter after the request was there before or is the key of a batch
the request spawned. -/
theorem recorded_or_spawned (cfg : AmassConfig) (req : AmassRequest) (s : ServiceState)
    (hwf : req.Name = "" ∨ HasSuffix req.Name ("." ++ req.Domain)) :
    ∀ k ∈ (checkForNewSubdomain cfg req s).state.subdomains,
      k ∈ s.subdomains ∨ k ∈ (checkForNewSubdomain cfg req s).batches.map Prod.fst := by
  intro k hk
  by_cases hks : k ∈ s.subdomains
  · exact Or.inl hks
  right
  have hdom : cfg.BruteForcing = true → req.Domain ∉ s.subdomains →
      req.Domain ∈ (checkForNewSubdomain cfg req s).batches.map Prod.fst := by
    intro hB hD
    simp [Admission.batches, checkForNewSubdomain_kickoff, hB, hD]
  rw [checkForNewSubdomain_subdomains] at hk
  by_cases hB : cfg.BruteForcing = true
  · rw [if_pos hB] at hk
    by_cases hc : req.Name ≠ "" ∧ cfg.Recursive = true ∧ 3 ≤ labelCount req.Name
    · rw [if_pos hc] at hk
      rcases Finset.mem_insert.mp hk with rfl | hk2
      · by_cases hcd : candidate req.Name = req.Domain
        · rw [hcd] at hks ⊢
          exact hdom hB hks
        · rcases hwf with hempty | hsuf
          · exact absurd hempty hc.1
          · obtain ⟨p, hp⟩ := exists_of_HasSuffix req.Name req.Domain hsuf
            have hdepth : labelCount req.Domain < labelCount req.Name - 1 := by
              rw [hp] at hcd ⊢
              exact depth_of_candidate_ne p req.Domain hcd
            have hrec : (checkForNewSubdomain cfg req s).recursive
                = some (candidate req.Name, req.Domain) := by
              rw [checkForNewSubdomain_recursive, if_pos]
              exact ⟨hB, hc.2.1, hc.1, hc.2.2, hks, hcd, hdepth⟩
            simp [Admission.batches, hrec]
      · rcases Finset.mem_insert.mp hk2 with rfl | hk3
        · exact hdom hB hks
        · exact absurd hk3 hks
    · rw [if_neg hc] at hk
      rcases Finset.mem_insert.mp hk with rfl | hk3
      · exact hdom hB hks
      · exact absurd hk3 hks
  · rw [if_neg hB] at hk
    exact absurd hk hks

theorem processAll_recorded_or_spawned (cfg : AmassConfig) (reqs : List AmassRequest)
    (s : ServiceState)
    (hwf : ∀ q ∈ reqs, q.Name = "" ∨ HasSuffix q.Name ("." ++ q.Domain)) :
    ∀ k ∈ (processAll cfg reqs s).1.subdomains,
      k ∈ s.subdomains ∨ k ∈ (processAll cfg reqs s).2.map Prod.fst := by
  induction reqs generalizing s with
  | nil =>
    intro k hk
    exact Or.inl hk
  | cons r rs ih =>
    intro k hk
    simp only [processAll] at hk ⊢
    have h1 := ih (runBatches cfg (checkForNewSubdomain cfg r s).batches
      (checkForNewSubdomain cfg r s).state)
      (fun q hq => hwf q (List.mem_cons_of_mem _ hq)) k hk
    rw [runBatches_subdomains] at h1
    rw [List.map_append, List.mem_append]
    rcases h1 with h1 | h1
    · rcases recorded_or_spawned cfg r s (hwf r (List.mem_cons_self _ _)) k h1 with h2 | h2
      · exact Or.inl h2
      · exact Or.inr (Or.inl h2)
    · exact Or.inr (Or.inr h1)

/-- On sequences in which every name is empty or strictly under its domain,
no recursion is missed: with `BruteForcing` and `Recursive` enabled and a
fresh service, once a request with a name of at least three labels has been
processed, a batch with its candidate as key has been spawned, by it or by an
earlier request.  A request whose name equals its domain is outside this
class. -/
theorem recursion_not_missed_under_domain (cfg : AmassConfig)
    (hB : cfg.BruteForcing = true) (hR : cfg.Recursive = true)
    (pre : List AmassRequest) (r : AmassRequest) (active : Bool)
    (hwf : ∀ q ∈ pre ++ [r], q.Name = "" ∨ HasSuffix q.Name ("." ++ q.Domain))
    (h3 : 3 ≤ labelCount r.Name) :
    candidate r.Name ∈
      (processAll cfg (pre ++ [r]) (NewBruteForceService active)).2.map Prod.fst := by
  have hname : r.Name ≠ "" := by
    intro h
    rw [h, labelCount_empty] at h3
    omega
  have hmem : candidate r.Name ∈
      (processAll cfg (pre ++ [r]) (NewBruteForceService active)).1.subdomains := by
    rw [processAll_append]
    simp only [processAll]
    rw [runBatches_subdomains, checkForNewSubdomain_subdomains, if_pos hB,
      if_pos ⟨hname, hR, h3⟩]
    simp
  rcases processAll_recorded_or_spawned cfg (pre ++ [r]) (NewBruteForceService active) hwf
    _ hmem with h | h
  · simp [NewBruteForceService] at h
  · exact h

end Amass
